import Mathlib

/-!
Verification of the PyInstaller bootloader diagnostic layer (`pyi_global.c`)
and endianness normalization header against its design description.

The C sources are shallowly embedded: fixed-size stack buffers become
`List Nat` byte lists of explicit length, each store into a buffer becomes a
write event `(index, byte)`, and the byte-oriented library calls
(`vsnprintf`, `strncpy`, `sprintf`) become functions producing the exact
write-event sequences the C standard prescribes for them.  External
collaborators that are not part of the sources (UTF-8 conversion routines,
the OS error-string resolvers) are abstract parameters.
-/

/-! ### Endianness normalization layer (`pyi_be16toh` / `pyi_be32toh` / `pyi_be64toh`)

On little-endian hosts the macros bind to the platform byte-swap primitive
(`__builtin_bswap16/32/64`, `_byteswap_ushort/_ulong/_uint64`, `be16toh`,
`OSSwapBigToHostInt16`, ...); on big-endian hosts they are the identity.
The byte-swap primitive is modelled arithmetically byte by byte. -/

/-- Byte swap of a 16-bit value, the semantics of the platform primitives
(`__builtin_bswap16`, `_byteswap_ushort`, `be16toh` on little-endian). -/
def bswap16 (x : Nat) : Nat := x % 256 * 2 ^ 8 + x / 2 ^ 8 % 256

/-- Byte swap of a 32-bit value. -/
def bswap32 (x : Nat) : Nat :=
  x % 256 * 2 ^ 24 + x / 2 ^ 8 % 256 * 2 ^ 16 + x / 2 ^ 16 % 256 * 2 ^ 8 + x / 2 ^ 24 % 256

/-- Byte swap of a 64-bit value. -/
def bswap64 (x : Nat) : Nat :=
  x % 256 * 2 ^ 56 + x / 2 ^ 8 % 256 * 2 ^ 48 + x / 2 ^ 16 % 256 * 2 ^ 40 +
    x / 2 ^ 24 % 256 * 2 ^ 32 + x / 2 ^ 32 % 256 * 2 ^ 24 + x / 2 ^ 40 % 256 * 2 ^ 16 +
    x / 2 ^ 48 % 256 * 2 ^ 8 + x / 2 ^ 56 % 256

/-- `pyi_be16toh`: big-endian to host conversion of a 16-bit value, selected
at compile time by the host byte order (`littleEndianHost`). -/
def pyi_be16toh (littleEndianHost : Bool) (x : Nat) : Nat :=
  if littleEndianHost then bswap16 x else x

/-- `pyi_be32toh`: big-endian to host conversion of a 32-bit value. -/
def pyi_be32toh (littleEndianHost : Bool) (x : Nat) : Nat :=
  if littleEndianHost then bswap32 x else x

/-- `pyi_be64toh`: big-endian to host conversion of a 64-bit value. -/
def pyi_be64toh (littleEndianHost : Bool) (x : Nat) : Nat :=
  if littleEndianHost then bswap64 x else x

/-- Little-endian byte decomposition of a value into `w` bytes
(least-significant byte first). -/
def toBytesLE : Nat → Nat → List Nat
  | 0, _ => []
  | w + 1, x => x % 256 :: toBytesLE w (x / 256)

/-- Value of a little-endian byte list (least-significant byte first). -/
def ofBytesLE : List Nat → Nat
  | [] => 0
  | b :: t => b + 256 * ofBytesLE t

/-- The specification's "full reversal of the value's bytes" for a `w`-byte
value, stated independently of the byte-swap arithmetic: decompose into `w`
bytes, reverse their order, reassemble. -/
def byteReversal (w x : Nat) : Nat := ofBytesLE (toBytesLE w x).reverse

/-- Loading a wire byte sequence (given in storage order, most-significant
byte first on the wire) into a host register: a little-endian host reads the
first stored byte as least significant, a big-endian host as most
significant. -/
def hostLoad (littleEndianHost : Bool) (wire : List Nat) : Nat :=
  if littleEndianHost then ofBytesLE wire else ofBytesLE wire.reverse

/-! ### Write-event model of the fixed C character buffers

A fixed stack buffer `char buf[N]` is a `List Nat` of length `N` whose
initial contents are arbitrary (stack garbage), so every theorem about
buffer contents quantifies over the initial list.  Each byte store becomes
a write event `(index, byte)`; applying a write uses `List.set`, which
leaves the list unchanged on an out-of-range index, so out-of-bounds stores
(which in C corrupt neighbouring memory) are detected by inspecting the
event sequence itself, not by their effect on the modelled buffer. -/

/-- A store of one byte at one buffer index. -/
abbrev WriteEvent := Nat × Nat

/-- Apply a sequence of write events to a buffer, in order. -/
def applyWrites (init : List Nat) (ws : List WriteEvent) : List Nat :=
  ws.foldl (fun buf w => buf.set w.1 w.2) init

/-- All write events of a sequence land strictly inside a buffer of
capacity `cap`. -/
def writesInBounds (cap : Nat) (ws : List WriteEvent) : Prop :=
  ∀ w ∈ ws, w.1 < cap

/-- `strlen` of a buffer: the number of bytes before the first null. -/
def strlenBuf (buf : List Nat) : Nat :=
  (buf.takeWhile fun b => b != 0).length

/-- `vsnprintf(buf + off, n, fmt, args)`, where the full rendering of
`fmt`/`args` is the byte string `s`: for `n > 0` it stores the first
`min |s| (n-1)` rendered bytes followed by one terminating null byte, and
nothing for `n = 0`; its return value (modelled separately as `s.length`)
is the length the full rendering would have had (C99). -/
def vsnprintfWritesAt (off : Nat) (s : List Nat) (n : Nat) : List WriteEvent :=
  if n = 0 then []
  else List.enumFrom off (s.take (n - 1)) ++ [(off + min s.length (n - 1), 0)]

/-- `strncpy(buf + off, src, n)` for a source string with byte content
`src`: stores exactly `n` bytes at `off` — the first `min |src| n` bytes of
`src`, followed by null padding up to `n` bytes when `src` is shorter than
`n`; no terminating null is stored when `|src| ≥ n`. -/
def strncpyWrites (off : Nat) (src : List Nat) (n : Nat) : List WriteEvent :=
  List.enumFrom off (src.take n ++ List.replicate (n - src.length) 0)

/-- `sprintf(buf, fmt, args)` whose rendering is `s`: stores `s` at offset
0 followed by a terminating null; returns `s.length`. -/
def sprintfWrites (s : List Nat) : List WriteEvent :=
  List.enumFrom 0 s ++ [(s.length, 0)]

/-! ### Diagnostic emission layer (`pyi_global.c`)

Variadic formatting is embedded by its observable effect: a
format/argument combination is represented by the byte string `rendered`
(resp. `body`) that its full rendering would produce.  The external
collaborators — `pyi_win32_utils_from_utf8`, `pyi_win32_utf8_to_mbs`
(UTF-8 conversion, `pyi_win32_utils.c`), `GetWinErrorString`, `strerror` —
are abstract parameters (`conv`, `errstr`). -/

/-- `MBTXTLEN`: text capacity of every dialog message buffer. -/
def MBTXTLEN : Nat := 1024

/-- `VPRINTF_TO_STDERR_BUFSIZE = MBTXTLEN * 2`: capacity of the two
stderr-path buffers of `vprintf_to_stderr`. -/
def VPRINTF_TO_STDERR_BUFSIZE : Nat := MBTXTLEN * 2

/-- Write events of `mbfatalerror` / `mbothererror` on the local
`char msg[MBTXTLEN]`: a single `vsnprintf(msg, MBTXTLEN, fmt, args)`,
where `rendered` is the full rendering of `fmt` with its arguments. -/
def mbMsgWrites (rendered : List Nat) : List WriteEvent :=
  vsnprintfWritesAt 0 rendered MBTXTLEN

/-- The `msg` buffer of `mbfatalerror` / `mbothererror` after rendering,
starting from arbitrary stack contents `init`. -/
def mbfatalerrorBuf (init rendered : List Nat) : List Nat :=
  applyWrites init (mbMsgWrites rendered)

/-- Write events of `mbfatal_winerror` / `mbfatal_perror` on the local
`char msg[MBTXTLEN]`, following the C control flow:
`size = vsnprintf(msg, MBTXTLEN, fmt, args)` (full rendering `body`), then
three appends, each guarded by `if (size < MBTXTLEN)`:
`strncpy(msg + size, funcname, MBTXTLEN - size - 1)` after which `size`
advances by the full `strlen(funcname)`;
`strncpy(msg + size, ": ", 2)` after which `size` advances by 2;
`strncpy(msg + size, errstr, MBTXTLEN - size - 1)`;
finally `msg[MBTXTLEN-1] = 0`.  `errstr` stands for
`GetWinErrorString(error_code)` in `mbfatal_winerror` and for
`strerror(errno)` in `mbfatal_perror`; the two functions share this
composition verbatim. -/
def mbfatalWrites (body funcname errstr : List Nat) : List WriteEvent :=
  let size0 := body.length
  let w0 := vsnprintfWritesAt 0 body MBTXTLEN
  let w1 := if size0 < MBTXTLEN then strncpyWrites size0 funcname (MBTXTLEN - size0 - 1) else []
  let size1 := if size0 < MBTXTLEN then size0 + funcname.length else size0
  let w2 := if size1 < MBTXTLEN then strncpyWrites size1 [58, 32] 2 else []
  let size2 := if size1 < MBTXTLEN then size1 + 2 else size1
  let w3 := if size2 < MBTXTLEN then strncpyWrites size2 errstr (MBTXTLEN - size2 - 1) else []
  w0 ++ w1 ++ w2 ++ w3 ++ [(MBTXTLEN - 1, 0)]

/-- The `msg` buffer of `mbfatal_winerror` / `mbfatal_perror` after the
composition, starting from arbitrary stack contents `init`. -/
def mbfatalBuf (init body funcname errstr : List Nat) : List Nat :=
  applyWrites init (mbfatalWrites body funcname errstr)

/-- Decimal digit bytes of `n`, most significant first, as `%d` renders a
nonnegative integer. -/
def decimalBytes (n : Nat) : List Nat := (Nat.toDigits 10 n).map Char.toNat

/-- The process-identifier tag that `"[%d] "` renders: `[`, the decimal
digits of the pid, `]`, one space. -/
def pidTag (pid : Nat) : List Nat := 91 :: (decimalBytes pid ++ [93, 32])

/-- Write events of `mbvs` (windowed debug builds) on `char msg[MBTXTLEN]`:
`pid_len = sprintf(msg, "[%d] ", getpid())`, then
`vsnprintf(&msg[pid_len], MBTXTLEN - pid_len, fmt, args)`. -/
def mbvsWrites (pid : Nat) (rendered : List Nat) : List WriteEvent :=
  sprintfWrites (pidTag pid) ++
    vsnprintfWritesAt (pidTag pid).length rendered (MBTXTLEN - (pidTag pid).length)

/-- The `msg` buffer of `mbvs` (handed to `OutputDebugStringA`), starting
from arbitrary stack contents `init`. -/
def mbvsBuf (init : List Nat) (pid : Nat) (rendered : List Nat) : List Nat :=
  applyWrites init (mbvsWrites pid rendered)

/-- The C-string contents of a buffer of capacity `cap` after
`vsnprintf(buf, cap, ...)` with full rendering `s`, as read back through
`"%s"`: the rendered bytes, cut at the capacity bound and at the first
null byte of the rendering. -/
def renderedCString (s : List Nat) (cap : Nat) : List Nat :=
  (s.take (cap - 1)).takeWhile fun b => b != 0

/-- `vprintf_to_stderr`: the bytes written to the standard error stream.
On Windows (`win32 = true`) the message is rendered into
`utf8_buffer[VPRINTF_TO_STDERR_BUFSIZE]` and re-encoded to the active code
page by `pyi_win32_utf8_to_mbs` (abstract conversion `conv`, `none` on
failure); the re-encoded text is printed on success, the raw UTF-8 text on
failure.  On other platforms `vfprintf(stderr, fmt, v)` emits the
rendering directly.  The function returns no status to its caller (`void`
in C, a total function here). -/
def vprintf_to_stderr (win32 : Bool) (conv : List Nat → Option (List Nat))
    (rendered : List Nat) : List Nat :=
  if win32 then
    match conv (renderedCString rendered VPRINTF_TO_STDERR_BUFSIZE) with
    | some mbcs => mbcs
    | none => renderedCString rendered VPRINTF_TO_STDERR_BUFSIZE
  else rendered

/-- `pyi_global_printf`: the bytes written to the standard error stream:
first `fprintf(stderr, "[%d] ", getpid())`, then the message through
`vprintf_to_stderr`. -/
def pyi_global_printf (win32 : Bool) (conv : List Nat → Option (List Nat))
    (pid : Nat) (rendered : List Nat) : List Nat :=
  pidTag pid ++ vprintf_to_stderr win32 conv rendered

/-- The modal dialog invocation that `show_message_box` resolves to:
either the wide path `MessageBoxW(NULL, wmsg, wcaption, MB_OK | uType)` or
the ANSI fallback path `MessageBoxA(NULL, msg, caption, MB_OK | uType)`. -/
inductive DialogCall where
  | wide (wmsg wcaption : List Nat)
  | ansi (msg caption : List Nat)
deriving DecidableEq

/-- The null-terminated byte buffer backing a C string with content `s`. -/
def cStringBuffer (s : List Nat) : List Nat := s ++ [0]

/-- `show_message_box(msg, caption, uType)`.  The UTF-8-to-wide conversion
`pyi_win32_utils_from_utf8` lives in `pyi_win32_utils.c`, outside these
sources.  Modelled from the spec: text re-encoding "can fail
(unrepresentable characters)"; it either succeeds, producing the converted
text, or fails leaving the destination buffer unchanged.  `wcaption` is
pre-initialized to the empty wide string `L""` and the result of the
caption conversion is ignored, so a failed caption conversion leaves the
empty caption; a failed message conversion takes the `MessageBoxA`
fallback that displays the raw message bytes. -/
def show_message_box (conv : List Nat → Option (List Nat))
    (msg caption : List Nat) : DialogCall :=
  match conv msg with
  | some wmsg =>
      DialogCall.wide wmsg
        (match conv caption with
          | some wcaption => wcaption
          | none => [])
  | none => DialogCall.ansi msg caption

/-! ### Theorems -/

theorem toBytesLE_two (x : Nat) : toBytesLE 2 x = [x % 256, x / 256 % 256] := rfl

theorem toBytesLE_four (x : Nat) :
    toBytesLE 4 x = [x % 256, x / 256 % 256, x / 256 / 256 % 256, x / 256 / 256 / 256 % 256] :=
  rfl

/-- C3: for every 16-, 32- and 64-bit unsigned value, the big-endian-to-host
conversion on a little-endian host equals the full reversal of the value's
bytes, and on a big-endian host it is the identity; the conversion is a total
function with no error condition. -/
theorem pyi_betoh_is_byte_reversal (x : Nat) :
    pyi_be16toh true x = byteReversal 2 x ∧ pyi_be16toh false x = x ∧
    pyi_be32toh true x = byteReversal 4 x ∧ pyi_be32toh false x = x ∧
    pyi_be64toh true x = byteReversal 8 x ∧ pyi_be64toh false x = x := by
  refine ⟨?_, rfl, ?_, rfl, ?_, rfl⟩ <;>
    · simp only [pyi_be16toh, pyi_be32toh, pyi_be64toh, if_true, byteReversal, toBytesLE,
        ofBytesLE, List.reverse_cons, List.reverse_nil, List.nil_append, List.cons_append,
        bswap16, bswap32, bswap64, Nat.div_div_eq_div_mul]
      ring_nf

/-- C4: converting the 4-byte big-endian wire sequence `00 00 01 00` with the
32-bit conversion yields 256, and converting the 2-byte big-endian wire
sequence `01 00` with the 16-bit conversion yields 256, on both host byte
orders. -/
theorem wire_sequences_yield_256 :
    (pyi_be32toh true (hostLoad true [0, 0, 1, 0]) = 256 ∧
      pyi_be32toh false (hostLoad false [0, 0, 1, 0]) = 256) ∧
    pyi_be16toh true (hostLoad true [1, 0]) = 256 ∧
    pyi_be16toh false (hostLoad false [1, 0]) = 256 := by
  decide

theorem applyWrites_append (init : List Nat) (ws₁ ws₂ : List WriteEvent) :
    applyWrites init (ws₁ ++ ws₂) = applyWrites (applyWrites init ws₁) ws₂ :=
  List.foldl_append ..

theorem applyWrites_single (init : List Nat) (w : WriteEvent) :
    applyWrites init [w] = init.set w.1 w.2 := rfl

theorem length_applyWrites (ws : List WriteEvent) :
    ∀ init : List Nat, (applyWrites init ws).length = init.length := by
  induction ws with
  | nil => intro init; rfl
  | cons w t ih =>
    intro init
    have : applyWrites init (w :: t) = applyWrites (init.set w.1 w.2) t := rfl
    rw [this, ih, List.length_set]

/-- A block of consecutive stores `enumFrom k s` overwrites the slice
`[k, k + |s|)` of the buffer with `s` and touches nothing else. -/
theorem applyWrites_enumFrom (s : List Nat) : ∀ (k : Nat) (init : List Nat),
    k + s.length ≤ init.length →
    applyWrites init (List.enumFrom k s) = init.take k ++ s ++ init.drop (k + s.length) := by
  induction s with
  | nil =>
    intro k init h
    simp [applyWrites]
  | cons a t ih =>
    intro k init h
    simp only [List.length_cons] at h
    have hk : k < init.length := by omega
    have step : applyWrites init (List.enumFrom k (a :: t))
        = applyWrites (init.set k a) (List.enumFrom (k + 1) t) := rfl
    have hlen : k + 1 + t.length ≤ (init.set k a).length := by
      rw [List.length_set]; omega
    rw [step, ih (k + 1) (init.set k a) hlen, List.set_eq_take_cons_drop a hk]
    have hA : (init.take k ++ [a]).length = k + 1 := by
      simp [List.length_take, Nat.min_eq_left (Nat.le_of_lt hk)]
    have e1 : init.take k ++ a :: init.drop (k + 1)
        = (init.take k ++ [a]) ++ init.drop (k + 1) := by simp
    rw [e1, List.take_left' hA]
    have e2 : ((init.take k ++ [a]) ++ init.drop (k + 1)).drop (k + 1 + t.length)
        = init.drop (k + 1 + t.length) := by
      rw [← List.drop_drop, List.drop_left' hA, List.drop_drop]
    rw [e2]
    have e3 : k + 1 + t.length = k + (t.length + 1) := by omega
    simp [e3]

/-- Every index stored by `enumFrom k s` lies in `[k, k + |s|)`. -/
theorem mem_enumFrom_index_bound (s : List Nat) :
    ∀ (k : Nat) (w : WriteEvent), w ∈ List.enumFrom k s → k ≤ w.1 ∧ w.1 < k + s.length := by
  induction s with
  | nil => intro k w hw; simp at hw
  | cons a t ih =>
    intro k w hw
    simp only [List.enumFrom_cons, List.mem_cons] at hw
    rcases hw with rfl | hw
    · simp
    · have := ih (k + 1) w hw
      simp only [List.length_cons]
      omega

/-- Effect of a `vsnprintf` block on the buffer (positive capacity, block
inside the buffer): the rendered truncation appears at `off`, followed by
one null, and the rest of the buffer keeps its previous contents. -/
theorem vsnprintf_applyWrites (off : Nat) (s init : List Nat) (n : Nat)
    (hn : 0 < n) (hle : off + n ≤ init.length) :
    applyWrites init (vsnprintfWritesAt off s n)
      = init.take off ++ s.take (n - 1) ++
          0 :: init.drop (off + min s.length (n - 1) + 1) := by
  have hA : (s.take (n - 1)).length = min s.length (n - 1) := by
    simp [List.length_take, Nat.min_comm]
  have hne : n ≠ 0 := by omega
  rw [vsnprintfWritesAt, if_neg hne, applyWrites_append,
    applyWrites_enumFrom (s.take (n - 1)) off init (by omega),
    applyWrites_single]
  set A := s.take (n - 1) with hAdef
  set L := init.take off ++ A ++ init.drop (off + A.length) with hL
  have hoffle : off ≤ init.length := by omega
  have htakelen : (init.take off).length = off := by
    simp [List.length_take, Nat.min_eq_left hoffle]
  have hLlen : L.length = init.length := by
    simp only [hL, List.length_append, htakelen, List.length_drop]
    omega
  have hpos : off + A.length < L.length := by
    rw [hLlen]; omega
  have hPA : ((init.take off ++ A)).length = off + A.length := by
    simp [List.length_append, htakelen]
  rw [show (off + min s.length (n - 1)) = off + A.length by rw [hA],
    List.set_eq_take_cons_drop 0 hpos]
  have e1 : L.take (off + A.length) = init.take off ++ A := by
    rw [hL]; exact List.take_left' hPA
  have e2 : L.drop (off + A.length + 1) = init.drop (off + A.length + 1) := by
    rw [hL, ← List.drop_drop, List.drop_left' hPA, List.drop_drop]
  rw [e1, e2, hA]

/-- Effect of a `strncpy` block on the buffer (block inside the buffer):
exactly `n` bytes at `off` become the truncated source plus null padding,
the rest keeps its previous contents. -/
theorem strncpy_applyWrites (off : Nat) (src init : List Nat) (n : Nat)
    (hle : off + n ≤ init.length) :
    applyWrites init (strncpyWrites off src n)
      = init.take off ++ (src.take n ++ List.replicate (n - src.length) 0) ++
          init.drop (off + n) := by
  have hA : (src.take n ++ List.replicate (n - src.length) 0).length = n := by
    simp [List.length_take, List.length_replicate]
    omega
  rw [strncpyWrites, applyWrites_enumFrom _ off init (by omega), hA]

/-! ### Buffer characterizations and claim theorems -/

/-- The rendering step of the dialog emissions: the buffer becomes the
truncated rendering, one null, and the untouched tail of the stack
contents. -/
theorem mbfatalerrorBuf_eq (init rendered : List Nat) (h : init.length = MBTXTLEN) :
    mbfatalerrorBuf init rendered
      = rendered.take (MBTXTLEN - 1) ++
          0 :: init.drop (min rendered.length (MBTXTLEN - 1) + 1) := by
  have hv := vsnprintf_applyWrites 0 rendered init MBTXTLEN (by norm_num [MBTXTLEN]) (by omega)
  simpa [mbfatalerrorBuf, mbMsgWrites] using hv

theorem strlenBuf_append_zero_le (a b : List Nat) : strlenBuf (a ++ 0 :: b) ≤ a.length := by
  induction a with
  | nil => simp [strlenBuf]
  | cons x t ih =>
    by_cases hx : x = 0
    · simp [strlenBuf, hx]
    · simp only [List.cons_append, strlenBuf, List.takeWhile_cons] at ih ⊢
      simp only [bne_iff_ne, ne_eq, hx, not_false_eq_true, if_true, List.length_cons]
      omega

theorem strlenBuf_append_zero_eq (b : List Nat) :
    ∀ a : List Nat, (∀ x ∈ a, x ≠ 0) → strlenBuf (a ++ 0 :: b) = a.length := by
  intro a
  induction a with
  | nil => intro _; simp [strlenBuf]
  | cons x t ih =>
    intro ha
    have hx : x ≠ 0 := ha x (by simp)
    have ht := ih fun y hy => ha y (by simp [hy])
    simp only [List.cons_append, strlenBuf, List.takeWhile_cons] at ht ⊢
    simp only [bne_iff_ne, ne_eq, hx, not_false_eq_true, if_true, List.length_cons]
    omega

/-- C2: for every rendering whose full length is at least the capacity
`MBTXTLEN`, the `vsnprintf` rendering step of the dialog emissions
(`mbfatalerror`, `mbothererror`) yields a null-terminated buffer whose
string length is exactly `MBTXTLEN - 1`, whose kept content is exactly the
first `MBTXTLEN - 1` bytes of the full rendering, and whose stores all
land inside the buffer bound. -/
theorem mbfatalerror_truncation (init rendered : List Nat)
    (hinit : init.length = MBTXTLEN) (hlong : MBTXTLEN ≤ rendered.length)
    (hnz : ∀ x ∈ rendered, x ≠ 0) :
    mbfatalerrorBuf init rendered = rendered.take (MBTXTLEN - 1) ++ [0] ∧
    strlenBuf (mbfatalerrorBuf init rendered) = MBTXTLEN - 1 ∧
    writesInBounds MBTXTLEN (mbMsgWrites rendered) := by
  have heq := mbfatalerrorBuf_eq init rendered hinit
  have hmin : min rendered.length (MBTXTLEN - 1) = MBTXTLEN - 1 := by
    have : MBTXTLEN - 1 ≤ rendered.length := by omega
    omega
  rw [hmin] at heq
  have hdrop : init.drop (MBTXTLEN - 1 + 1) = [] := by
    rw [List.drop_eq_nil_iff]
    omega
  have hbufeq : mbfatalerrorBuf init rendered = rendered.take (MBTXTLEN - 1) ++ [0] := by
    rw [heq, hdrop]
  refine ⟨hbufeq, ?_, ?_⟩
  · rw [heq, hdrop]
    have := strlenBuf_append_zero_eq [] (rendered.take (MBTXTLEN - 1))
      fun x hx => hnz x (List.take_subset _ _ hx)
    rw [this]
    simp [List.length_take]
    omega
  · intro w hw
    have hMB : MBTXTLEN ≠ 0 := by norm_num [MBTXTLEN]
    simp only [mbMsgWrites, vsnprintfWritesAt, if_neg hMB, List.mem_append,
      List.mem_singleton] at hw
    have hminle : min rendered.length (MBTXTLEN - 1) ≤ MBTXTLEN - 1 := Nat.min_le_right _ _
    rcases hw with hw | hw
    · have hb := mem_enumFrom_index_bound _ 0 w hw
      have : (rendered.take (MBTXTLEN - 1)).length ≤ MBTXTLEN - 1 := by
        simp [List.length_take]
      omega
    · have : w.1 = min rendered.length (MBTXTLEN - 1) := by rw [hw]; simp
      omega

theorem mbfatalerror_truncation_witness :
    mbfatalerrorBuf (List.replicate MBTXTLEN 7) (List.replicate 2000 65)
        = (List.replicate 2000 65).take (MBTXTLEN - 1) ++ [0] ∧
    strlenBuf (mbfatalerrorBuf (List.replicate MBTXTLEN 7) (List.replicate 2000 65))
        = MBTXTLEN - 1 ∧
    writesInBounds MBTXTLEN (mbMsgWrites (List.replicate 2000 65)) :=
  mbfatalerror_truncation (List.replicate MBTXTLEN 7) (List.replicate 2000 65)
    (by rw [List.length_replicate])
    (by rw [List.length_replicate]; norm_num [MBTXTLEN])
    (fun x hx => by rw [List.eq_of_mem_replicate hx]; omega)

/-- C10: the dialog message buffer capacity is exactly 1024 bytes
(`MBTXTLEN`), the stderr-path rendering and re-encoding buffers hold
exactly `2 * MBTXTLEN = 2048` bytes, and consequently, for every
rendering, the dialog emission buffer keeps length 1024 and displays a
message body of at most 1023 bytes before the terminating null. -/
theorem buffer_capacities (init rendered : List Nat) (hinit : init.length = MBTXTLEN) :
    MBTXTLEN = 1024 ∧ VPRINTF_TO_STDERR_BUFSIZE = 2 * MBTXTLEN ∧
    (mbfatalerrorBuf init rendered).length = 1024 ∧
    strlenBuf (mbfatalerrorBuf init rendered) ≤ 1023 := by
  refine ⟨rfl, by norm_num [VPRINTF_TO_STDERR_BUFSIZE, MBTXTLEN], ?_, ?_⟩
  · rw [mbfatalerrorBuf, length_applyWrites, hinit]
    rfl
  · have heq := mbfatalerrorBuf_eq init rendered hinit
    rw [heq]
    have hle := strlenBuf_append_zero_le (rendered.take (MBTXTLEN - 1))
      (init.drop (min rendered.length (MBTXTLEN - 1) + 1))
    have hlen : (rendered.take (MBTXTLEN - 1)).length ≤ MBTXTLEN - 1 := by
      simp [List.length_take]
    have hM : MBTXTLEN = 1024 := rfl
    omega

/-- C5: when the message body alone renders to at least the capacity (the
spec's scenario uses 2000 characters), every `if (size < MBTXTLEN)` guard
of the OS-error-annotated composition fails, so the buffer contains only
the truncated message body: exactly the first `MBTXTLEN - 1` body bytes
followed by the final null; the failing-function name, the separator and
the error description are all dropped, whatever they are. -/
theorem mbfatal_long_body_keeps_only_body (init body funcname errstr : List Nat)
    (hinit : init.length = MBTXTLEN) (hlong : MBTXTLEN ≤ body.length) :
    mbfatalBuf init body funcname errstr = body.take (MBTXTLEN - 1) ++ [0] := by
  have hM : MBTXTLEN = 1024 := rfl
  have hnotlt : ¬ body.length < MBTXTLEN := by omega
  have hwrites : mbfatalWrites body funcname errstr
      = vsnprintfWritesAt 0 body MBTXTLEN ++ [(MBTXTLEN - 1, 0)] := by
    simp [mbfatalWrites, hnotlt]
  have hv := vsnprintf_applyWrites 0 body init MBTXTLEN (by omega) (by omega)
  have hmin : min body.length (MBTXTLEN - 1) = MBTXTLEN - 1 := by omega
  have hdrop : init.drop (0 + min body.length (MBTXTLEN - 1) + 1) = [] := by
    rw [List.drop_eq_nil_iff]
    omega
  rw [hdrop] at hv
  simp only [List.take_zero, List.nil_append, Nat.zero_add] at hv
  have hlen1 : (body.take (MBTXTLEN - 1)).length = MBTXTLEN - 1 := by
    simp [List.length_take]
    omega
  rw [mbfatalBuf, hwrites, applyWrites_append, hv, applyWrites_single]
  have hpos : MBTXTLEN - 1 < (body.take (MBTXTLEN - 1) ++ [0]).length := by
    simp [hlen1]
  rw [List.set_eq_take_cons_drop 0 hpos, List.take_left' hlen1]
  have : (body.take (MBTXTLEN - 1) ++ [0]).drop (MBTXTLEN - 1 + 1) = [] := by
    rw [List.drop_eq_nil_iff]
    simp [hlen1]
  rw [this]

theorem mbfatal_long_body_keeps_only_body_witness :
    mbfatalBuf (List.replicate MBTXTLEN 9) (List.replicate 2000 66) [70, 71] [69]
      = (List.replicate 2000 66).take (MBTXTLEN - 1) ++ [0] :=
  mbfatal_long_body_keeps_only_body (List.replicate MBTXTLEN 9) (List.replicate 2000 66)
    [70, 71] [69]
    (by rw [List.length_replicate])
    (by rw [List.length_replicate]; norm_num [MBTXTLEN])

/-- The `mbvs` buffer: the pid tag, then the truncated rendering, one
null, and the untouched tail of the stack contents. -/
theorem mbvsBuf_eq (init : List Nat) (pid : Nat) (rendered : List Nat)
    (hinit : init.length = MBTXTLEN) (hpid : (pidTag pid).length < MBTXTLEN) :
    mbvsBuf init pid rendered
      = pidTag pid ++ rendered.take (MBTXTLEN - (pidTag pid).length - 1) ++
          0 :: init.drop ((pidTag pid).length +
            min rendered.length (MBTXTLEN - (pidTag pid).length - 1) + 1) := by
  set L := (pidTag pid).length with hL
  have hM : MBTXTLEN = 1024 := rfl
  rw [mbvsBuf, mbvsWrites, applyWrites_append, sprintfWrites, applyWrites_append,
    applyWrites_enumFrom (pidTag pid) 0 init (by omega), applyWrites_single]
  simp only [List.take_zero, List.nil_append, Nat.zero_add, ← hL]
  have htag : (pidTag pid ++ init.drop L).length = init.length := by
    simp [List.length_append, List.length_drop, hL]
    omega
  have hsetpos : L < (pidTag pid ++ init.drop L).length := by omega
  rw [List.set_eq_take_cons_drop 0 hsetpos, List.take_left' hL.symm,
    ← List.drop_drop, List.drop_left' hL.symm, List.drop_drop]
  set buf1 := pidTag pid ++ 0 :: init.drop (L + 1) with hbuf1
  have hbuf1len : buf1.length = init.length := by
    simp [hbuf1, List.length_append, List.length_drop, hL]
    omega
  have hv := vsnprintf_applyWrites L rendered buf1 (MBTXTLEN - L) (by omega) (by omega)
  rw [hv]
  have e1 : buf1.take L = pidTag pid := by
    rw [hbuf1]; exact List.take_left' hL.symm
  have e2 : ∀ k : Nat, buf1.drop (L + k + 1) = init.drop (L + 1 + k) := by
    intro k
    rw [hbuf1, show L + k + 1 = L + (k + 1) by omega, ← List.drop_drop,
      List.drop_left' hL.symm]
    show (0 :: init.drop (L + 1)).drop (k + 1) = init.drop (L + 1 + k)
    rw [List.drop_succ_cons, List.drop_drop]
  rw [e1, e2]
  have : L + 1 + min rendered.length (MBTXTLEN - L - 1)
      = L + min rendered.length (MBTXTLEN - L - 1) + 1 := by omega
  rw [this]

/-- C6: plain debug emission always begins with the process identifier in
square brackets followed by exactly one space, before any rendered message
content: both the stderr bytes of `pyi_global_printf` and the `mbvs`
buffer (windowed debug builds) start with the tag `pidTag pid`, which is
`[`, the decimal digits of the pid, `]`, one space. -/
theorem debug_emission_starts_with_pid_tag (win32 : Bool)
    (conv : List Nat → Option (List Nat)) (init : List Nat) (pid : Nat)
    (rendered : List Nat) (hinit : init.length = MBTXTLEN)
    (hpid : (pidTag pid).length < MBTXTLEN) :
    (pyi_global_printf win32 conv pid rendered).take (pidTag pid).length = pidTag pid ∧
    (mbvsBuf init pid rendered).take (pidTag pid).length = pidTag pid := by
  constructor
  · rw [pyi_global_printf]
    exact List.take_left' rfl
  · rw [mbvsBuf_eq init pid rendered hinit hpid, List.append_assoc]
    exact List.take_left' rfl

theorem debug_emission_starts_with_pid_tag_witness :
    (pyi_global_printf false (fun _ => none) 123 [72, 105]).take (pidTag 123).length
        = pidTag 123 ∧
    (mbvsBuf (List.replicate 1024 5) 123 [72, 105]).take (pidTag 123).length = pidTag 123 :=
  debug_emission_starts_with_pid_tag false (fun _ => none) (List.replicate 1024 5) 123
    [72, 105] (by rw [List.length_replicate]; rfl) (by decide)

/-- C1: the claim fails on the code.  With a message body whose full
rendering is 1000 bytes and a failing-function name of 23 bytes, the body
and the name fill the buffer to `size = 1023`; the guard
`if (size < MBTXTLEN)` admits `size = MBTXTLEN - 1 = 1023`, so
`strncpy(msg + 1023, ": ", 2)` is entered and stores its second byte (the
space, 32) at index `MBTXTLEN = 1024` — one byte past the end of the
1024-byte `msg` buffer.  The write-event trace therefore contains a store
at an out-of-bounds index, refuting "no write ever occurs past the buffer
bound". -/
theorem mbfatal_separator_store_past_bound :
    (MBTXTLEN, 32) ∈ mbfatalWrites (List.replicate 1000 65) (List.replicate 23 70) [69] ∧
    ¬ writesInBounds MBTXTLEN
        (mbfatalWrites (List.replicate 1000 65) (List.replicate 23 70) [69]) := by
  have hM : MBTXTLEN = 1024 := rfl
  have hif : mbfatalWrites (List.replicate 1000 65) (List.replicate 23 70) [69]
      = vsnprintfWritesAt 0 (List.replicate 1000 65) MBTXTLEN ++
        strncpyWrites 1000 (List.replicate 23 70) (MBTXTLEN - 1000 - 1) ++
        strncpyWrites 1023 [58, 32] 2 ++ [] ++ [(MBTXTLEN - 1, 0)] := by
    simp only [mbfatalWrites, List.length_replicate]
    norm_num [MBTXTLEN]
  have h32 : ((1024 : Nat), (32 : Nat)) ∈ strncpyWrites 1023 [58, 32] 2 := by decide
  have hmem : (MBTXTLEN, 32) ∈
      mbfatalWrites (List.replicate 1000 65) (List.replicate 23 70) [69] := by
    rw [hif, hM]
    simp only [List.mem_append, List.append_nil]
    exact Or.inl (Or.inr h32)
  refine ⟨hmem, fun hb => ?_⟩
  have := hb _ hmem
  simp at this

/-- C7: if the UTF-8-to-wide conversion of the message fails, the windowed
user-facing emission still displays the message: it takes the
`MessageBoxA` fallback with exactly the raw unconverted message bytes —
whose backing C-string buffer is non-empty and null-terminated — so the
message is never dropped (the raw bytes shown are the unreadable-text
hint). -/
theorem show_message_box_raw_fallback (conv : List Nat → Option (List Nat))
    (msg caption : List Nat) (hfail : conv msg = none) :
    show_message_box conv msg caption = DialogCall.ansi msg caption ∧
    cStringBuffer msg ≠ [] ∧
    (cStringBuffer msg).getLast? = some 0 := by
  refine ⟨?_, by simp [cStringBuffer], ?_⟩
  · simp [show_message_box, hfail]
  · rw [cStringBuffer, List.getLast?_concat]

theorem show_message_box_raw_fallback_witness :
    show_message_box (fun _ => none) [200, 201] [70] = DialogCall.ansi [200, 201] [70] ∧
    cStringBuffer [200, 201] ≠ [] ∧
    (cStringBuffer [200, 201]).getLast? = some 0 :=
  show_message_box_raw_fallback (fun _ => none) [200, 201] [70] rfl

/-- C9: if the wide conversion of the message succeeds but the wide
conversion of the caption fails, the dialog is still displayed through
`MessageBoxW`, with the caption buffer holding its pre-initialized empty
wide string: caption-conversion failure never prevents the message from
being shown and never leaves the caption buffer uninitialized. -/
theorem show_message_box_empty_caption (conv : List Nat → Option (List Nat))
    (msg caption wmsg : List Nat) (hok : conv msg = some wmsg)
    (hfail : conv caption = none) :
    show_message_box conv msg caption = DialogCall.wide wmsg [] := by
  simp [show_message_box, hok, hfail]

theorem show_message_box_empty_caption_witness :
    show_message_box
        (fun s => match s with | [65] => some [65] | _ => none) [65] [200]
      = DialogCall.wide [65] [] :=
  show_message_box_empty_caption
    (fun s => match s with | [65] => some [65] | _ => none) [65] [200] [65] rfl rfl

/-- C8: the console emission path always writes the rendered message to
the standard error stream: on Windows it writes the re-encoded text when
the code-page conversion succeeds and the original raw UTF-8 text when it
fails, and on other platforms the rendering directly; in no case is the
message suppressed, and the function returns no error to the caller (it
is a total function with no status result). -/
theorem vprintf_to_stderr_never_suppresses (conv : List Nat → Option (List Nat))
    (rendered mbcs : List Nat) :
    (conv (renderedCString rendered VPRINTF_TO_STDERR_BUFSIZE) = some mbcs →
      vprintf_to_stderr true conv rendered = mbcs) ∧
    (conv (renderedCString rendered VPRINTF_TO_STDERR_BUFSIZE) = none →
      vprintf_to_stderr true conv rendered
        = renderedCString rendered VPRINTF_TO_STDERR_BUFSIZE) ∧
    vprintf_to_stderr false conv rendered = rendered := by
  refine ⟨fun h => ?_, fun h => ?_, rfl⟩ <;> simp [vprintf_to_stderr, h]

theorem vprintf_to_stderr_never_suppresses_witness :
    vprintf_to_stderr true (fun _ => some [77]) [72] = [77] ∧
    vprintf_to_stderr true (fun _ => none) [72]
        = renderedCString [72] VPRINTF_TO_STDERR_BUFSIZE ∧
    vprintf_to_stderr false (fun _ => none) [72] = [72] :=
  ⟨(vprintf_to_stderr_never_suppresses (fun _ => some [77]) [72] [77]).1 rfl,
    (vprintf_to_stderr_never_suppresses (fun _ => none) [72] []).2.1 rfl,
    (vprintf_to_stderr_never_suppresses (fun _ => none) [72] []).2.2⟩

theorem buffer_capacities_witness :
    MBTXTLEN = 1024 ∧ VPRINTF_TO_STDERR_BUFSIZE = 2 * MBTXTLEN ∧
    (mbfatalerrorBuf (List.replicate 1024 3) [72, 105]).length = 1024 ∧
    strlenBuf (mbfatalerrorBuf (List.replicate 1024 3) [72, 105]) ≤ 1023 :=
  buffer_capacities (List.replicate 1024 3) [72, 105]
    (by rw [List.length_replicate]; rfl)
